import Mathlib

/-!
Verification of the ToDoBy checklist parsing engine.

Shallow embedding of the two parser implementations found in the source:
the line-class/accumulate model of `src/load.rs` and the combinator
grammar model of `src/item/item_parser.rs`, together with the data model
of `src/item/item.rs`.  Strings are modelled as `List Char`; Rust `u8`
arithmetic is modelled as `Nat` with explicit `% 256` (release-mode
wrapping semantics).
-/

namespace ToDoBy

/-- Characters of the Unicode White_Space property: the set recognized by
Rust `char::is_whitespace`, `str::trim`, and the regex crate class `\s`. -/
def rustWhitespace (c : Char) : Bool :=
  [' ', '\t', '\n', '\u000B', '\u000C', '\r', '\u0085', ' ', ' ',
   ' ', ' ', ' ', ' ', ' ', ' ', ' ', ' ',
   ' ', ' ', ' ', ' ', ' ', ' ', ' ', '　'].contains c

/-- The list-bullet characters of the regex class in `load.rs` and the
nom `list_marker` alternation in `item_parser.rs`. -/
def bulletChar (c : Char) : Bool :=
  ['*', '+', '-', '•'].contains c

/-- Number of occurrences of the character `c` in a string. -/
def charCount (c : Char) : List Char → Nat
  | [] => 0
  | x :: tl => (if x = c then 1 else 0) + charCount c tl

/-- Fueled non-overlapping substring occurrence count, the semantics of
Rust `str::matches(pat).count()` scanning left to right. -/
def matchesCountFuel : Nat → List Char → List Char → Nat
  | 0, _, _ => 0
  | n + 1, pat, s =>
    match s with
    | [] => 0
    | _ :: tl =>
      if pat.isPrefixOf s then matchesCountFuel n pat (s.drop pat.length) + 1
      else matchesCountFuel n pat tl

/-- Embedding of Rust `s.matches(pat).count()`. -/
def strMatchesCount (pat s : List Char) : Nat :=
  matchesCountFuel (s.length + 1) pat s

/-- Embedding of `load.rs::whitespace_to_nest`:
`s.matches("\t").count() as u8 + (s.matches(" ").count() as u8 / 4)`.
The two `as u8` casts truncate modulo 256 and the `u8` addition wraps
(release semantics), hence the explicit `% 256` reductions. -/
def whitespace_to_nest (s : List Char) : Nat :=
  (strMatchesCount ['\t'] s % 256 + strMatchesCount [' '] s % 256 / 4) % 256

/-- Embedding of Rust `str::trim`: strip leading and trailing Unicode
whitespace. -/
def rustTrim (s : List Char) : List Char :=
  ((s.dropWhile rustWhitespace).reverse.dropWhile rustWhitespace).reverse

/-- Characters of a line up to (excluding) the first newline. -/
def firstLine : List Char → List Char
  | [] => []
  | c :: cs => if c = '\n' then [] else c :: firstLine cs

/-- Remainder after the first newline, or `none` when the string holds no
newline (the final segment before end of input). -/
def restAfterLine : List Char → Option (List Char)
  | [] => none
  | c :: cs => if c = '\n' then some cs else restAfterLine cs

/-- Strip one trailing carriage return, as `BufRead::lines` does for
`\r\n` terminated lines. -/
def stripCR (l : List Char) : List Char :=
  if l.getLast? = some '\r' then l.dropLast else l

/-- Fueled splitting of an input string into lines, the semantics of
`BufRead::lines`: terminators removed, `\r\n` treated like `\n`, a
trailing terminator producing no extra empty line. -/
def splitLinesFuel : Nat → List Char → List (List Char)
  | 0, _ => []
  | _ + 1, [] => []
  | n + 1, s =>
    match restAfterLine s with
    | none => [s]
    | some r => stripCR (firstLine s) :: splitLinesFuel n r

/-- Split an input string into its lines (`BufRead::lines` semantics). -/
def splitLines (s : List Char) : List (List Char) :=
  splitLinesFuel (s.length + 1) s

/-- The three line kinds of `load.rs::LineKind`. -/
inductive LineKind
  | Blank
  | ItemOpen
  | Other
deriving DecidableEq

/-- The input past the optional leading whitespace and optional single
bullet of the item-opening patterns `^\s*[\*\+\-•]?...`.  The character
classes of consecutive regex pieces are disjoint, so the greedy match is
deterministic: maximal whitespace run, then at most one bullet. -/
def afterBullet (s : List Char) : List Char :=
  let r1 := s.dropWhile rustWhitespace
  match r1 with
  | c :: tl => if bulletChar c then tl else r1
  | [] => r1

/-- The shared core of the two item-opening regexes: after the optional
bullet, a maximal whitespace run, then `\[(.)\]` with an ASCII-bracket
checkbox whose mark is any non-newline character; yields the mark and the
input after the closing bracket. -/
def checkboxTail (s : List Char) : Option (Char × List Char) :=
  match (afterBullet s).dropWhile rustWhitespace with
  | o :: m :: c :: rest =>
    if o = '[' ∧ c = ']' ∧ m ≠ '\n' then some (m, rest) else none
  | _ => none

/-- Embedding of `REGEX_LINE_ITEM_OPEN.is_match`, the anchored prefix
pattern `^\s*[\*\+\-•]?\s*\[.\]`. -/
def itemOpenMatch (s : List Char) : Bool :=
  (checkboxTail s).isSome

/-- Embedding of `REGEX_LINE_ITEM_OPEN_CAPTURES.captures` for the pattern
`^(\s*)[\*\+\-•]?\s*\[(.)\]\s*(.*)$`: returns the leading-whitespace
group, the mark character, and the memo remainder group.  `(.*)` cannot
cross a newline and `$` is end of haystack, so a newline in the remainder
after the post-checkbox whitespace run defeats the whole match. -/
def itemOpenCaptures (s : List Char) : Option (List Char × Char × List Char) :=
  match checkboxTail s with
  | none => none
  | some (m, rest) =>
    let memoPart := rest.dropWhile rustWhitespace
    if memoPart.contains '\n' then none
    else some (s.takeWhile rustWhitespace, m, memoPart)

/-- Embedding of the line classification in `load_items_via_buf_read`:
`REGEX_LINE_ITEM_OPEN` first, then `REGEX_LINE_BLANK` (`^\s*$`), else
`Other`. -/
def classifyLine (s : List Char) : LineKind :=
  if itemOpenMatch s then .ItemOpen
  else if s.all rustWhitespace then .Blank
  else .Other

/-- Embedding of `src/item/item.rs::Item`. -/
structure Item where
  nest : Option Nat
  mark : Option (List Char)
  memo : Option (List Char)
  label1s : Option (List (List Char))
  label2s : Option (List (List Char × List Char))
deriving DecidableEq

/-- The two states of `load.rs::State` (`Do` = idle, `Doing` = a task's
lines are accumulating). -/
inductive PState
  | Do
  | Doing
deriving DecidableEq

/-- The mutable loop state of `load_items_via_buf_read`: the output
vector plus the current nest/mark/memo variables. -/
structure Acc where
  vec : List Item
  state : PState
  nest : Nat
  mark : List Char
  memo : List Char
deriving DecidableEq

/-- Initial loop state: empty vector, state `Do`, nest 0, and the two
`"?"` sentinels. -/
def initAcc : Acc :=
  ⟨[], .Do, 0, ['?'], ['?']⟩

/-- The record pushed by `vec.push(Item { .. })` from the current
accumulator variables. -/
def itemOfAcc (a : Acc) : Item :=
  ⟨some a.nest, some a.mark, some a.memo, none, none⟩

/-- One iteration of the loop body of `load_items_via_buf_read` on a
single line: emit the in-progress record when a `Doing` state meets an
`ItemOpen` or `Blank` line, then apply the per-kind update. -/
def loadStep (a : Acc) (s : List Char) : Acc :=
  let k := classifyLine s
  let vec' := if a.state = .Doing ∧ (k = .ItemOpen ∨ k = .Blank)
    then a.vec ++ [itemOfAcc a] else a.vec
  match k with
  | .ItemOpen =>
    match itemOpenCaptures s with
    | some (ws, m, memoRaw) =>
      ⟨vec', .Doing, whitespace_to_nest ws, [m], rustTrim memoRaw⟩
    | none => ⟨vec', .Doing, a.nest, a.mark, a.memo⟩
  | .Blank => ⟨vec', .Do, a.nest, a.mark, a.memo⟩
  | .Other => ⟨vec', .Doing, a.nest, a.mark, a.memo ++ '\n' :: rustTrim s⟩

/-- Terminal emission after the loop: a still-`Doing` state pushes the
pending record. -/
def loadFinish (a : Acc) : List Item :=
  a.vec ++ (if a.state = .Doing then [itemOfAcc a] else [])

/-- Embedding of `load_items_via_buf_read` on an already-split sequence
of lines (the `Ok` payload; string sources cannot raise I/O errors). -/
def load_items (doc : List (List Char)) : List Item :=
  loadFinish (doc.foldl loadStep initAcc)

/-- Embedding of `load_items_via_str`: split the string into lines and
run the accumulator loop. -/
def load_items_via_str (s : List Char) : List Item :=
  load_items (splitLines s)

/-- Number of lines of a document that classify as `ItemOpen`. -/
def opensCount (doc : List (List Char)) : Nat :=
  doc.countP (fun l => classifyLine l == LineKind.ItemOpen)

/-- The state component of one accumulator step, as a function of the
previous state and the line kind alone. -/
def stateStep (_st : PState) (l : List Char) : PState :=
  match classifyLine l with
  | .ItemOpen => .Doing
  | .Blank => .Do
  | .Other => .Doing

/-- Number of `Other`-classified lines a run encounters while the
accumulator state is `Do` (idle): exactly these lines start a record
without being `ItemOpen`. -/
def defensiveCount : PState → List (List Char) → Nat
  | _, [] => 0
  | st, l :: ls =>
    (if classifyLine l = .Other ∧ st = .Do then 1 else 0) +
      defensiveCount (stateStep st l) ls

/-! The combinator grammar of `src/item/item_parser.rs`.  Each parser is
`List Char → Option (List Char × output)` mirroring `nom::IResult`
(remaining input, output); `none` is nom's `Err` value. -/

/-- The whitespace class of `nom::character::complete::multispace0`:
space, tab, carriage return, and newline only (ASCII, unlike the regex
`\s` class of `load.rs`). -/
def nomWs (c : Char) : Bool :=
  [' ', '\t', '\r', '\n'].contains c

/-- Embedding of `item_parser::list_marker`: one of the four bullet
characters. -/
def list_marker : List Char → Option (List Char × Char)
  | c :: tl => if bulletChar c then some (tl, c) else none
  | [] => none

/-- Embedding of `item_parser::checkbox_open`: ASCII or full-width left
square bracket. -/
def checkbox_open : List Char → Option (List Char × Char)
  | c :: tl => if c = '[' ∨ c = '［' then some (tl, c) else none
  | [] => none

/-- Embedding of `item_parser::checkbox_mark`: `take(1)`, any single
character. -/
def checkbox_mark : List Char → Option (List Char × Char)
  | c :: tl => some (tl, c)
  | [] => none

/-- Embedding of `item_parser::checkbox_shut`: ASCII or full-width right
square bracket. -/
def checkbox_shut : List Char → Option (List Char × Char)
  | c :: tl => if c = ']' ∨ c = '］' then some (tl, c) else none
  | [] => none

/-- Embedding of `item_parser::checkbox`: the open/mark/shut triplet. -/
def checkbox (s : List Char) : Option (List Char × (Char × Char × Char)) :=
  match checkbox_open s with
  | none => none
  | some (s1, o) =>
    match checkbox_mark s1 with
    | none => none
    | some (s2, m) =>
      match checkbox_shut s2 with
      | none => none
      | some (s3, c) => some (s3, (o, m, c))

/-- Embedding of `nom::character::complete::not_line_ending`: the input
up to the first `\r` or `\n`; a `\r` not followed by `\n` is an error. -/
def not_line_ending (s : List Char) : Option (List Char × List Char) :=
  let pre := s.takeWhile (fun c => c != '\r' && c != '\n')
  let rest := s.dropWhile (fun c => c != '\r' && c != '\n')
  match rest with
  | c :: tl =>
    if c = '\r' ∧ tl.head? ≠ some '\n' then none else some (rest, pre)
  | [] => some (rest, pre)

/-- Unicode alphanumeric classification used by
`nom_unicode::complete::alphanumeric0` (Rust `char::is_alphanumeric`),
modelled here on the ASCII subset exercised by this development. -/
def isUniAlnum (c : Char) : Bool :=
  c.isAlpha || c.isDigit

/-- Embedding of `item_parser::label_phrase`: a possibly empty maximal
run of alphanumeric characters (`alphanumeric0` cannot fail). -/
def label_phrase (s : List Char) : List Char × List Char :=
  (s.dropWhile isUniAlnum, s.takeWhile isUniAlnum)

/-- Embedding of `item_parser::label_open`: ASCII or full-width number
sign. -/
def label_open : List Char → Option (List Char × Char)
  | c :: tl => if c = '#' ∨ c = '＃' then some (tl, c) else none
  | [] => none

/-- Embedding of `item_parser::label_splitter`: ASCII or full-width
colon. -/
def label_splitter : List Char → Option (List Char × Char)
  | c :: tl => if c = ':' ∨ c = '：' then some (tl, c) else none
  | [] => none

/-- Embedding of `item_parser::label1`: a label-open marker followed by
one phrase, anchored at the start of the input. -/
def label1 (s : List Char) : Option (List Char × (Char × List Char)) :=
  match label_open s with
  | none => none
  | some (s1, o) =>
    let (s2, p) := label_phrase s1
    some (s2, (o, p))

/-- Embedding of `item_parser::label2`: label-open, phrase, splitter,
phrase, anchored at the start of the input. -/
def label2 (s : List Char) :
    Option (List Char × (Char × List Char × Char × List Char)) :=
  match label_open s with
  | none => none
  | some (s1, o) =>
    let (s2, p0) := label_phrase s1
    match label_splitter s2 with
    | none => none
    | some (s3, sp) =>
      let (s4, p1) := label_phrase s3
      some (s4, (o, p0, sp, p1))

/-- Embedding of `item_parser::one`: indent, a mandatory list marker,
indent, checkbox, indent, memo, trailing whitespace; produces an `Item`
with `nest` fixed at 0. -/
def one (input : List Char) : Option (List Char × Item) :=
  let i1 := input.dropWhile nomWs
  match list_marker i1 with
  | none => none
  | some (i2, _) =>
    let i3 := i2.dropWhile nomWs
    match checkbox i3 with
    | none => none
    | some (i4, cbx) =>
      let i5 := i4.dropWhile nomWs
      match not_line_ending i5 with
      | none => none
      | some (i6, memoStr) =>
        let i7 := i6.dropWhile nomWs
        some (i7, ⟨some 0, some [cbx.2.1], some memoStr, none, none⟩)

/-- Fueled iteration of `one`, the semantics of `nom::multi::many0`:
collect items while the inner parser succeeds.  `one` always consumes
input when it succeeds, so fuel `length + 1` never runs out (nom's
zero-consumption loop error is unreachable). -/
def many0Fuel : Nat → List Char → List Char × List Item
  | 0, s => (s, [])
  | n + 1, s =>
    match one s with
    | none => (s, [])
    | some (rest, it) =>
      let (r, its) := many0Fuel n rest
      (r, it :: its)

/-- Embedding of `item_parser::many0`. -/
def many0 (s : List Char) : List Char × List Item :=
  many0Fuel (s.length + 1) s

/-! Auxiliary definitions for the restricted agreement of the two
implementations (claim C9). -/

/-- A canonical single-line bulleted item: `* [m] w`. -/
def bulletLine (m : Char) (w : List Char) : List Char :=
  '*' :: ' ' :: '[' :: m :: ']' :: ' ' :: w

/-- A document made of newline-terminated canonical bulleted lines. -/
def bulletDoc : List (Char × List Char) → List Char
  | [] => []
  | (m, w) :: ps => bulletLine m w ++ '\n' :: bulletDoc ps

/-- The record both implementations produce for a canonical bulleted
line. -/
def plainItem (m : Char) (w : List Char) : Item :=
  ⟨some 0, some [m], some w, none, none⟩

/-- Side conditions for a canonical pair: the mark is not a newline and
the memo word is a nonempty run of non-whitespace characters. -/
def goodPair (p : Char × List Char) : Prop :=
  p.1 ≠ '\n' ∧ p.2 ≠ [] ∧ ∀ c ∈ p.2, rustWhitespace c = false

instance goodPair.instDecidable (p : Char × List Char) :
    Decidable (goodPair p) := by
  unfold goodPair
  infer_instance

/-! Helper lemmas. -/

/-- The fueled substring counter on a single-character pattern counts
character occurrences, for any sufficient fuel. -/
theorem matchesCountFuel_single (c : Char) :
    ∀ n s, List.length s < n → matchesCountFuel n [c] s = charCount c s := by
  intro n
  induction n with
  | zero => exact fun s h => absurd h (Nat.not_lt_zero _)
  | succ n ih =>
    intro s h
    cases s with
    | nil => rfl
    | cons x tl =>
      have htl : tl.length < n := Nat.lt_of_succ_lt_succ (by simpa using h)
      by_cases hx : c = x
      · subst hx
        simp [matchesCountFuel, List.isPrefixOf, charCount, ih tl htl]
        omega
      · have hx' : x ≠ c := fun hxc => hx hxc.symm
        simp [matchesCountFuel, List.isPrefixOf, charCount, hx', ih tl htl,
          Ne.symm hx']

/-- Rust `s.matches(pat).count()` on a one-character pattern is the
character count. -/
theorem strMatchesCount_single (c : Char) (s : List Char) :
    strMatchesCount [c] s = charCount c s :=
  matchesCountFuel_single c (s.length + 1) s (Nat.lt_succ_self _)

/-- Counting one character inside a replicated character. -/
theorem charCount_replicate (c d : Char) (n : Nat) :
    charCount c (List.replicate n d) = if d = c then n else 0 := by
  induction n with
  | zero => simp [charCount]
  | succ n ih =>
    by_cases h : d = c
    · subst h
      have ih' : charCount d (List.replicate n d) = n := by simpa using ih
      simp [List.replicate, charCount, ih']
      omega
    · simp [List.replicate, charCount, h] at ih ⊢
      simpa [h] using ih

/-- The nesting calculation, written in terms of character counts. -/
theorem whitespace_to_nest_eq (s : List Char) :
    whitespace_to_nest s =
      (charCount '\t' s % 256 + charCount ' ' s % 256 / 4) % 256 := by
  simp [whitespace_to_nest, strMatchesCount_single]

/-- When neither count truncates and the sum fits in a byte, the nesting
calculation is the exact tab-plus-quarter-spaces formula. -/
theorem whitespace_to_nest_of_lt (s : List Char)
    (h1 : charCount '\t' s < 256) (h2 : charCount ' ' s < 256)
    (h3 : charCount '\t' s + charCount ' ' s / 4 < 256) :
    whitespace_to_nest s = charCount '\t' s + charCount ' ' s / 4 := by
  rw [whitespace_to_nest_eq, Nat.mod_eq_of_lt h1, Nat.mod_eq_of_lt h2,
    Nat.mod_eq_of_lt h3]

/-- A successful capture implies the line classifies as `ItemOpen`. -/
theorem classify_of_captures {l ws mem : List Char} {m : Char}
    (h : itemOpenCaptures l = some (ws, m, mem)) :
    classifyLine l = .ItemOpen := by
  have hm : itemOpenMatch l = true := by
    unfold itemOpenCaptures at h
    unfold itemOpenMatch
    cases hct : checkboxTail l with
    | none => rw [hct] at h; exact absurd h (by simp)
    | some v => simp [hct]
  simp [classifyLine, hm]

/-! Claim theorems. -/

/-- C1 (counterexample): the claim that `"［x］ foo"` (full-width
brackets) parses as an item-opening line with mark `"x"` and memo
`"foo"` is false: the `load.rs` classifier regex accepts only ASCII
brackets, so the line is classified `Other` and the whole-document parse
degrades it to a continuation record with sentinel mark `"?"`. -/
theorem C1_counterexample :
    load_items_via_str (("［x］ foo").data) =
      [⟨some 0, some ['?'], some ('?' :: '\n' :: ("［x］ foo").data), none, none⟩]
    ∧ (load_items_via_str (("［x］ foo").data)).map Item.mark ≠ [some ['x']]
    ∧ classifyLine (("［x］ foo").data) ≠ .ItemOpen := by
  refine ⟨by decide, by decide, by decide⟩

/-- C1 (amended): `"[x] foo"` parses to a record with mark `"x"` and
memo `"foo"`, and the checkbox grammar of `item_parser.rs` accepts both
ASCII and full-width brackets with the same extracted mark; but the line
classifier of `load.rs` tolerates only the ASCII brackets, so
`"［x］ foo"` is classified `Other` (a continuation), not `ItemOpen`. -/
theorem C1_theorem :
    load_items_via_str (("[x] foo").data) =
      [⟨some 0, some ['x'], some (("foo").data), none, none⟩]
    ∧ checkbox (("[x]").data) = some ([], ('[', 'x', ']'))
    ∧ checkbox (("［x］").data) = some ([], ('［', 'x', '］'))
    ∧ classifyLine (("[x] foo").data) = .ItemOpen
    ∧ classifyLine (("［x］ foo").data) = .Other := by
  refine ⟨by decide, by decide, by decide, by decide, by decide⟩

/-- C4 (code behavior at the failing input): the line `"[x] foo"`
without a list bullet classifies as `ItemOpen` under the `load.rs`
regex, yet `item_parser::one` fails on it, because its `list_marker`
parser is invoked unconditionally rather than optionally — contradicting
the unit test `test_one` and the doc example of `one` in the source,
which expect success with mark `"x"` and memo `"foo"`. -/
theorem C4_theorem :
    classifyLine (("[x] foo").data) = .ItemOpen
    ∧ one (("[x] foo").data) = none
    ∧ one (("* [x] foo").data) =
        some ([], ⟨some 0, some ['x'], some (("foo").data), none, none⟩) := by
  refine ⟨by decide, by decide, by decide⟩

/-- C5 (counterexample): the claim that a `Continuation` line processed
in the `Idle` state starts a record whose memo is exactly that line's
text is false: the accumulator appends `"\n"` plus the trimmed line to
the carried memo buffer, which initially holds the sentinel `"?"`, so
the document `"foo"` yields memo `"?\nfoo"`, not `"foo"`. -/
theorem C5_counterexample :
    load_items_via_str (("foo").data) =
      [⟨some 0, some ['?'], some ('?' :: '\n' :: ("foo").data), none, none⟩]
    ∧ (load_items_via_str (("foo").data)).map Item.memo ≠ [some (("foo").data)] := by
  refine ⟨by decide, by decide⟩

/-- C5 (amended): when a `Continuation` line arrives in the `Idle`
state, the accumulator switches to `Accumulating` without emitting
anything and without resetting its fields: the emitted-vector, nest and
mark are unchanged (mark is the sentinel `"?"` only because the initial
accumulator holds nest 0, mark `"?"`, memo `"?"`), and `"\n"` plus the
trimmed line is appended to the carried memo buffer rather than the line
becoming the memo of a fresh record. -/
theorem C5_theorem (a : Acc) (l : List Char)
    (h1 : a.state = .Do) (h2 : classifyLine l = .Other) :
    (loadStep a l).state = .Doing
    ∧ (loadStep a l).vec = a.vec
    ∧ (loadStep a l).nest = a.nest
    ∧ (loadStep a l).mark = a.mark
    ∧ (loadStep a l).memo = a.memo ++ '\n' :: rustTrim l
    ∧ initAcc.nest = 0 ∧ initAcc.mark = ['?'] ∧ initAcc.memo = ['?'] := by
  refine ⟨?_, ?_, ?_, ?_, ?_, rfl, rfl, rfl⟩ <;>
    simp [loadStep, h1, h2]

/-- C5 (witness): the amended transition evaluated on the initial
accumulator and the concrete continuation line `"foo"`. -/
theorem C5_witness :
    (loadStep initAcc (("foo").data)).state = .Doing
    ∧ (loadStep initAcc (("foo").data)).vec = initAcc.vec
    ∧ (loadStep initAcc (("foo").data)).nest = initAcc.nest
    ∧ (loadStep initAcc (("foo").data)).mark = initAcc.mark
    ∧ (loadStep initAcc (("foo").data)).memo =
        initAcc.memo ++ '\n' :: rustTrim (("foo").data)
    ∧ initAcc.nest = 0 ∧ initAcc.mark = ['?'] ∧ initAcc.memo = ['?'] :=
  C5_theorem initAcc (("foo").data) (by decide) (by decide)

/-- C6 (counterexample): the claim that label extraction finds labels
anywhere in a memo is false for the label parsers in the source: they
are anchored at the start of their input, so on `"body #priority:1"`
both `label1` and `label2` report no match; no scanning `extract_labels`
function exists in the source. -/
theorem C6_counterexample :
    label2 (("body #priority:1").data) = none
    ∧ label1 (("body #priority:1").data) = none := by
  refine ⟨by decide, by decide⟩

/-- C6 (amended): the label parsers match only at the beginning of their
input: `label2` on `"#priority:1"` succeeds with phrases `"priority"`
and `"1"` and empty remainder, while prefixing body text (`"body
#priority:1"`) makes both `label1` and `label2` fail. -/
theorem C6_theorem :
    label2 (("#priority:1").data) =
      some ([], ('#', ("priority").data, ':', ("1").data))
    ∧ label2 (("body #priority:1").data) = none := by
  refine ⟨by decide, by decide⟩

/-- C10: `whitespace_to_nest` performs its arithmetic in 8-bit unsigned
integers — the tab count and the space count are each truncated modulo
256 before the division and sum — so 260 leading spaces yield nest 1
rather than 65, and 256 tabs wrap to 0 instead of growing. -/
theorem C10_theorem :
    (∀ s : List Char, whitespace_to_nest s =
      (charCount '\t' s % 256 + charCount ' ' s % 256 / 4) % 256)
    ∧ whitespace_to_nest (List.replicate 260 ' ') = 1
    ∧ whitespace_to_nest (List.replicate 256 '\t') = 0 := by
  refine ⟨whitespace_to_nest_eq, ?_, ?_⟩
  · rw [whitespace_to_nest_eq, charCount_replicate, charCount_replicate,
      if_neg (by decide), if_pos rfl]
  · rw [whitespace_to_nest_eq, charCount_replicate, charCount_replicate,
      if_pos rfl, if_neg (by decide)]

/-- C10 (witness): the byte-truncating formula evaluated on the concrete
mixed run of two spaces, two tabs, and two more spaces. -/
theorem C10_witness :
    whitespace_to_nest (("  \t\t  ").data) =
      (charCount '\t' (("  \t\t  ").data) % 256 +
        charCount ' ' (("  \t\t  ").data) % 256 / 4) % 256 :=
  C10_theorem.1 (("  \t\t  ").data)

set_option maxRecDepth 40000 in
/-- C3 (counterexample): the claim that for every item-opening line the
emitted nest equals tabs plus floor(spaces/4) fails beyond 255: a line
with 264 leading spaces yields nest 2 (both counts are truncated to a
byte first, 264 mod 256 = 8, 8 / 4 = 2), not the 66 the exact formula
demands. -/
theorem C3_counterexample :
    (load_items [List.replicate 264 ' ' ++ ("[x] m").data]).map Item.nest = [some 2]
    ∧ charCount '\t' (List.replicate 264 ' ') +
        charCount ' ' (List.replicate 264 ' ') / 4 = 66
    ∧ (2 : Nat) ≠ 66 := by
  refine ⟨by decide, ?_, by decide⟩
  rw [charCount_replicate, charCount_replicate, if_neg (by decide), if_pos rfl]

/-- C3 (amended): for every line on which the capture regex succeeds,
and whatever the accumulator state (hence independently of every other
line of the document), the step stores as the record's nest exactly
(count of tabs) + floor((count of spaces) / 4) computed over the leading
whitespace group — provided neither count reaches 256 and the sum fits
in a byte; and the spec's four examples hold: `""` gives 0, four spaces
give 1, two tabs give 2, and seven spaces give 1. -/
theorem C3_theorem (l ws mem : List Char) (m : Char)
    (h : itemOpenCaptures l = some (ws, m, mem))
    (h1 : charCount '\t' ws < 256) (h2 : charCount ' ' ws < 256)
    (h3 : charCount '\t' ws + charCount ' ' ws / 4 < 256) :
    (∀ a : Acc, (loadStep a l).nest = charCount '\t' ws + charCount ' ' ws / 4
      ∧ (loadStep a l).state = .Doing)
    ∧ whitespace_to_nest [] = 0
    ∧ whitespace_to_nest (List.replicate 4 ' ') = 1
    ∧ whitespace_to_nest ['\t', '\t'] = 2
    ∧ whitespace_to_nest (List.replicate 7 ' ') = 1 := by
  refine ⟨fun a => ?_, by decide, by decide, by decide, by decide⟩
  have hcl : classifyLine l = .ItemOpen := classify_of_captures h
  constructor <;> simp [loadStep, hcl, h, whitespace_to_nest_of_lt ws h1 h2 h3]

/-- C3 (witness): the amended statement evaluated on the concrete line
`"    [x] hi"` (four leading spaces) from the initial accumulator. -/
theorem C3_witness :
    (loadStep initAcc (("    [x] hi").data)).nest =
      charCount '\t' (("    ").data) + charCount ' ' (("    ").data) / 4
    ∧ (loadStep initAcc (("    [x] hi").data)).state = .Doing :=
  (C3_theorem (("    [x] hi").data) (("    ").data) (("hi").data) 'x'
    (by decide) (by decide) (by decide) (by decide)).1 initAcc

/-- C2 (counterexample): the claim that the number of emitted records
equals the number of `ItemOpen`-classified lines is false: the
single-line document `"foo"` contains no `ItemOpen` line yet produces
one record (a continuation line met in the idle state starts a record). -/
theorem C2_counterexample :
    (load_items [("foo").data]).length = 1
    ∧ opensCount [("foo").data] = 0
    ∧ (1 : Nat) ≠ 0 := by
  refine ⟨by decide, by decide, by decide⟩

/-- C2 (amended): for every document, the number of emitted records
equals the number of `ItemOpen`-classified lines plus the number of
`Other`-classified (continuation) lines encountered while the
accumulator is idle; blank lines never create a record, and continuation
lines create one exactly when no task is in progress. -/
theorem C2_theorem (doc : List (List Char)) :
    (load_items doc).length = opensCount doc + defensiveCount .Do doc := by
  suffices h : ∀ a : Acc,
      (loadFinish (doc.foldl loadStep a)).length =
        a.vec.length + (if a.state = .Doing then 1 else 0) +
          opensCount doc + defensiveCount a.state doc by
    simpa [load_items, initAcc] using h initAcc
  induction doc with
  | nil =>
    intro a
    cases h : a.state <;>
      simp [loadFinish, opensCount, defensiveCount, h]
  | cons l ls ih =>
    intro a
    have hstate : ∀ b : Acc, (loadStep b l).state = stateStep b.state l := by
      intro b
      rcases hk : classifyLine l with _ | _ | _ <;>
        simp [loadStep, stateStep, hk]
      rcases hc : itemOpenCaptures l with _ | ⟨ws, m, mem⟩ <;> simp [hc]
    rcases hk : classifyLine l with _ | _ | _ <;>
      rcases hs : a.state with _ | _
    case Blank.Do =>
      simp only [List.foldl_cons, ih (loadStep a l)]
      simp [loadStep, hk, hs, opensCount, List.countP_cons, defensiveCount,
        stateStep]
    case Blank.Doing =>
      simp only [List.foldl_cons, ih (loadStep a l)]
      simp [loadStep, hk, hs, opensCount, List.countP_cons, defensiveCount,
        stateStep]
    case ItemOpen.Do =>
      simp only [List.foldl_cons, ih (loadStep a l)]
      rcases hc : itemOpenCaptures l with _ | ⟨ws, m, mem⟩ <;>
        simp [loadStep, hk, hs, hc, opensCount, List.countP_cons,
          defensiveCount, stateStep] <;> omega
    case ItemOpen.Doing =>
      simp only [List.foldl_cons, ih (loadStep a l)]
      rcases hc : itemOpenCaptures l with _ | ⟨ws, m, mem⟩ <;>
        simp [loadStep, hk, hs, hc, opensCount, List.countP_cons,
          defensiveCount, stateStep] <;> omega
    case Other.Do =>
      simp only [List.foldl_cons, ih (loadStep a l)]
      simp [loadStep, hk, hs, opensCount, List.countP_cons, defensiveCount,
        stateStep]
      omega
    case Other.Doing =>
      simp only [List.foldl_cons, ih (loadStep a l)]
      simp [loadStep, hk, hs, opensCount, List.countP_cons, defensiveCount,
        stateStep]

/-- C2 (witness): the amended count evaluated on a concrete document with
one item-opening line, one continuation merged into it, a blank line, and
one defensively started record. -/
theorem C2_witness :
    (load_items [("[x] a").data, ("bee").data, ("").data, ("cee").data]).length =
      opensCount [("[x] a").data, ("bee").data, ("").data, ("cee").data] +
        defensiveCount .Do
          [("[x] a").data, ("bee").data, ("").data, ("cee").data] :=
  C2_theorem [("[x] a").data, ("bee").data, ("").data, ("cee").data]

/-! Invariant lemmas for the error-handling claim (C7). -/

/-- Every field of the record built from the accumulator is present. -/
theorem itemOfAcc_fields (a : Acc) :
    (itemOfAcc a).nest.isSome = true ∧ (itemOfAcc a).mark.isSome = true
      ∧ (itemOfAcc a).memo.isSome = true :=
  ⟨rfl, rfl, rfl⟩

/-- One accumulator step either keeps the output vector or appends the
pending record. -/
theorem loadStep_vec_cases (a : Acc) (l : List Char) :
    (loadStep a l).vec = a.vec ∨ (loadStep a l).vec = a.vec ++ [itemOfAcc a] := by
  rcases hk : classifyLine l with _ | _ | _
  · rcases hs : a.state with _ | _ <;> simp [loadStep, hk, hs]
  · rcases hc : itemOpenCaptures l with _ | ⟨ws, m, mem⟩ <;>
      rcases hs : a.state with _ | _ <;> simp [loadStep, hk, hc, hs]
  · simp [loadStep, hk]

/-- A step never changes the mark unless the line is `ItemOpen`. -/
theorem loadStep_mark_of_not_open (a : Acc) (l : List Char)
    (h : classifyLine l ≠ .ItemOpen) : (loadStep a l).mark = a.mark := by
  rcases hk : classifyLine l with _ | _ | _ <;> simp [loadStep, hk] at h ⊢

/-- C7 (counterexample): the claim that malformed input degrades to a
record carrying the sentinel mark `"?"` is false once an item-opening
line has occurred: in `"[x] a\n\nfoo"` the trailing malformed line
`"foo"` is emitted in a record that carries the stale mark `"x"` (and
the stale memo `"a"` as prefix), not the sentinel. -/
theorem C7_counterexample :
    load_items_via_str (("[x] a\n\nfoo").data) =
      [⟨some 0, some ['x'], some ['a'], none, none⟩,
       ⟨some 0, some ['x'], some ('a' :: '\n' :: ("foo").data), none, none⟩]
    ∧ (load_items_via_str (("[x] a\n\nfoo").data)).map Item.mark ≠
        [some ['x'], some ['?']] := by
  refine ⟨by decide, by decide⟩

/-- C7 (amended): the parsing core is total with no fatal-error path:
every emitted record has all of nest, mark and memo present; when a
document contains no item-opening line at all, every emitted record
carries the sentinel mark `"?"` (malformed-only input degrades to
best-effort records; after an item-opening line the stale mark is
carried instead); and the single-line grammar entry point reports a
failed match as the plain no-match value, not an exception. -/
theorem C7_theorem :
    (∀ (doc : List (List Char)) (it : Item), it ∈ load_items doc →
      it.nest.isSome = true ∧ it.mark.isSome = true ∧ it.memo.isSome = true)
    ∧ (∀ doc : List (List Char), (∀ l ∈ doc, classifyLine l ≠ .ItemOpen) →
        ∀ it ∈ load_items doc, it.mark = some ['?'])
    ∧ one (("plain text").data) = none := by
  refine ⟨?_, ?_, by decide⟩
  · intro doc
    suffices h : ∀ a : Acc,
        (∀ it ∈ a.vec, it.nest.isSome = true ∧ it.mark.isSome = true
          ∧ it.memo.isSome = true) →
        ∀ it ∈ loadFinish (doc.foldl loadStep a),
          it.nest.isSome = true ∧ it.mark.isSome = true
            ∧ it.memo.isSome = true by
      intro it hit
      exact h initAcc (by simp [initAcc]) it hit
    induction doc with
    | nil =>
      intro a ha it hit
      rcases hs : a.state with _ | _ <;> simp [loadFinish, hs] at hit
      · exact ha it hit
      · rcases hit with hit | hit
        · exact ha it hit
        · exact hit ▸ itemOfAcc_fields a
    | cons l ls ih =>
      intro a ha
      simp only [List.foldl_cons]
      refine ih (loadStep a l) ?_
      intro it hit
      rcases loadStep_vec_cases a l with hv | hv <;> rw [hv] at hit
      · exact ha it hit
      · rcases List.mem_append.mp hit with hit | hit
        · exact ha it hit
        · have : it = itemOfAcc a := by simpa using hit
          exact this ▸ itemOfAcc_fields a
  · intro doc hdoc
    suffices h : ∀ a : Acc, a.mark = ['?'] →
        (∀ it ∈ a.vec, it.mark = some ['?']) →
        (∀ l ∈ doc, classifyLine l ≠ .ItemOpen) →
        ∀ it ∈ loadFinish (doc.foldl loadStep a), it.mark = some ['?'] by
      intro it hit
      exact h initAcc rfl (by simp [initAcc]) hdoc it hit
    clear hdoc
    induction doc with
    | nil =>
      intro a hmark ha _ it hit
      rcases hs : a.state with _ | _ <;> simp [loadFinish, hs] at hit
      · exact ha it hit
      · rcases hit with hit | hit
        · exact ha it hit
        · rw [hit, itemOfAcc, hmark]
    | cons l ls ih =>
      intro a hmark ha hdoc
      simp only [List.foldl_cons]
      refine ih (loadStep a l) ?_ ?_ (fun x hx => hdoc x (List.mem_cons_of_mem _ hx))
      · rw [loadStep_mark_of_not_open a l (hdoc l (List.mem_cons_self _ _)), hmark]
      · intro it hit
        rcases loadStep_vec_cases a l with hv | hv <;> rw [hv] at hit
        · exact ha it hit
        · rcases List.mem_append.mp hit with hit | hit
          · exact ha it hit
          · have : it = itemOfAcc a := by simpa using hit
            rw [this, itemOfAcc, hmark]

/-- C7 (witness): the amended guarantees evaluated on concrete
documents: the record emitted for `"[x] a"` has all fields present, and
the sole record of the classifier-rejected document `"abc"` carries the
sentinel mark. -/
theorem C7_witness :
    ((⟨some 0, some ['x'], some ['a'], none, none⟩ : Item).nest.isSome = true
      ∧ (⟨some 0, some ['x'], some ['a'], none, none⟩ : Item).mark.isSome = true
      ∧ (⟨some 0, some ['x'], some ['a'], none, none⟩ : Item).memo.isSome = true)
    ∧ (⟨some 0, some ['?'], some ('?' :: '\n' :: ("abc").data), none,
        none⟩ : Item).mark = some ['?'] :=
  ⟨C7_theorem.1 [("[x] a").data] _ (by decide),
   C7_theorem.2.1 [("abc").data] (by decide) _ (by decide)⟩

/-- C8: parsing `"[ ] alpha1\nalpha2\n"` yields exactly one record whose
memo is `"alpha1\nalpha2"` (the continuation line is trimmed and joined
with a newline separator); and for every document whose accumulator run
ends still accumulating, the pending record is emitted after the last
line — end of input closes an open task with no trailing blank line
required. -/
theorem C8_theorem :
    load_items_via_str (("[ ] alpha1\nalpha2\n").data) =
      [⟨some 0, some [' '], some (("alpha1\nalpha2").data), none, none⟩]
    ∧ ∀ doc : List (List Char),
        (doc.foldl loadStep initAcc).state = .Doing →
        load_items doc = (doc.foldl loadStep initAcc).vec ++
          [itemOfAcc (doc.foldl loadStep initAcc)] := by
  refine ⟨by decide, fun doc h => ?_⟩
  simp [load_items, loadFinish, h]

/-- C8 (witness): the end-of-input emission evaluated on the concrete
two-line document of the claim, which ends while still accumulating. -/
theorem C8_witness :
    load_items [("[ ] alpha1").data, ("alpha2").data] =
      (([("[ ] alpha1").data, ("alpha2").data]).foldl loadStep initAcc).vec ++
        [itemOfAcc (([("[ ] alpha1").data,
          ("alpha2").data]).foldl loadStep initAcc)] :=
  C8_theorem.2 [("[ ] alpha1").data, ("alpha2").data] (by decide)

/-! Machinery for the restricted agreement of the two implementations
(claim C9). -/

/-- The nom whitespace class is contained in the Unicode one. -/
theorem rustWs_of_nomWs {c : Char} (h : nomWs c = true) :
    rustWhitespace c = true := by
  have hc : c = ' ' ∨ c = '\t' ∨ c = '\r' ∨ c = '\n' := by
    simpa [nomWs, List.contains] using h
  rcases hc with rfl | rfl | rfl | rfl <;> decide

/-- Contrapositive form: a character outside the Unicode whitespace set
is outside the nom set. -/
theorem nomWs_eq_false {c : Char} (h : rustWhitespace c = false) :
    nomWs c = false := by
  by_contra hb
  rw [Bool.not_eq_false] at hb
  rw [rustWs_of_nomWs hb] at h
  exact Bool.noConfusion h

/-- `takeWhile` over a satisfying run followed by a failing element
takes exactly the run. -/
theorem takeWhile_append_stop {p : Char → Bool} {w : List Char} {x : Char}
    (r : List Char) (hw : ∀ c ∈ w, p c = true) (hx : p x = false) :
    (w ++ x :: r).takeWhile p = w := by
  induction w with
  | nil => simp [List.takeWhile_cons, hx]
  | cons c cs ih =>
    have hc := hw c (List.mem_cons_self c cs)
    simp [List.takeWhile_cons, hc,
      ih (fun d hd => hw d (List.mem_cons_of_mem _ hd))]

/-- `dropWhile` over a satisfying run followed by a failing element
drops exactly the run. -/
theorem dropWhile_append_stop {p : Char → Bool} {w : List Char} {x : Char}
    (r : List Char) (hw : ∀ c ∈ w, p c = true) (hx : p x = false) :
    (w ++ x :: r).dropWhile p = x :: r := by
  induction w with
  | nil => simp [List.dropWhile_cons, hx]
  | cons c cs ih =>
    have hc := hw c (List.mem_cons_self c cs)
    simp [List.dropWhile_cons, hc,
      ih (fun d hd => hw d (List.mem_cons_of_mem _ hd))]

/-- Trimming a word of non-whitespace characters is the identity. -/
theorem rustTrim_of_nonws {w : List Char}
    (hw : ∀ c ∈ w, rustWhitespace c = false) : rustTrim w = w := by
  have hdrop : ∀ v : List Char, (∀ c ∈ v, rustWhitespace c = false) →
      v.dropWhile rustWhitespace = v := by
    intro v hv
    cases v with
    | nil => rfl
    | cons c tl => simp [List.dropWhile_cons, hv c (List.mem_cons_self c tl)]
  rw [rustTrim, hdrop w hw,
    hdrop w.reverse (fun c hc => hw c (List.mem_reverse.mp hc)),
    List.reverse_reverse]

/-- A word of non-whitespace characters contains no newline. -/
theorem newline_not_mem {w : List Char}
    (hw : ∀ c ∈ w, rustWhitespace c = false) : '\n' ∉ w := by
  intro hm
  have := hw _ hm
  revert this
  decide

/-- The remainder after the first newline is strictly shorter. -/
theorem restAfterLine_length {s r : List Char}
    (h : restAfterLine s = some r) : r.length < s.length := by
  induction s generalizing r with
  | nil => exact absurd h (by simp [restAfterLine])
  | cons c cs ih =>
    by_cases hc : c = '\n'
    · simp [restAfterLine, hc] at h
      subst h
      simp [Nat.lt_succ_self]
    · simp only [restAfterLine, if_neg hc] at h
      exact Nat.lt_trans (ih h) (by simp [Nat.lt_succ_self])

/-- The fueled line splitter is fuel-independent once the fuel exceeds
the input length. -/
theorem splitLinesFuel_congr :
    ∀ (n m : Nat) (s : List Char), s.length < n → s.length < m →
      splitLinesFuel n s = splitLinesFuel m s := by
  intro n
  induction n with
  | zero => exact fun m s h _ => absurd h (Nat.not_lt_zero _)
  | succ n ih =>
    intro m s hn hm
    cases m with
    | zero => exact absurd hm (Nat.not_lt_zero _)
    | succ m =>
      cases s with
      | nil => rfl
      | cons c cs =>
        simp only [splitLinesFuel]
        cases hra : restAfterLine (c :: cs) with
        | none => rfl
        | some r =>
          have hr := restAfterLine_length hra
          dsimp only
          rw [ih m r (by simp only [List.length_cons] at hn hr; omega)
            (by simp only [List.length_cons] at hm hr; omega)]

/-- The first line of a newline-free prefix followed by a newline. -/
theorem firstLine_append {l : List Char} (hl : '\n' ∉ l) (r : List Char) :
    firstLine (l ++ '\n' :: r) = l := by
  induction l with
  | nil => simp [firstLine]
  | cons c cs ih =>
    have hc : c ≠ '\n' := fun e => hl (by rw [e]; exact List.mem_cons_self _ _)
    simp [firstLine, hc, ih (fun hm => hl (List.mem_cons_of_mem _ hm))]

/-- The remainder past a newline-free prefix and its newline. -/
theorem restAfterLine_append {l : List Char} (hl : '\n' ∉ l) (r : List Char) :
    restAfterLine (l ++ '\n' :: r) = some r := by
  induction l with
  | nil => simp [restAfterLine]
  | cons c cs ih =>
    have hc : c ≠ '\n' := fun e => hl (by rw [e]; exact List.mem_cons_self _ _)
    simp [restAfterLine, hc, ih (fun hm => hl (List.mem_cons_of_mem _ hm))]

/-- One step of the fueled splitter across a newline-terminated line. -/
theorem splitLinesFuel_append {l : List Char} (hl : '\n' ∉ l) (r : List Char)
    (n : Nat) :
    splitLinesFuel (n + 1) (l ++ '\n' :: r) = stripCR l :: splitLinesFuel n r := by
  have hra := restAfterLine_append hl r
  have hfl := firstLine_append hl r
  cases l with
  | nil =>
    simp only [List.nil_append] at hra hfl ⊢
    simp only [splitLinesFuel, hra, hfl]
  | cons c cs =>
    simp only [List.cons_append] at hra hfl ⊢
    simp only [splitLinesFuel, hra, hfl]

/-- The line splitter across a newline-terminated line. -/
theorem splitLines_append {l : List Char} (hl : '\n' ∉ l) (r : List Char) :
    splitLines (l ++ '\n' :: r) = stripCR l :: splitLines r := by
  rw [splitLines, splitLines]
  have h1 : (l ++ '\n' :: r).length + 1 = (l.length + r.length + 1) + 1 := by
    simp
    omega
  rw [h1, splitLinesFuel_append hl r]
  exact congrArg _ (splitLinesFuel_congr _ _ r (by omega) (Nat.lt_succ_self _))

/-- The canonical bulleted line contains no newline. -/
theorem bulletLine_no_newline {m : Char} {w : List Char} (hm : m ≠ '\n')
    (hw : ∀ c ∈ w, rustWhitespace c = false) : '\n' ∉ bulletLine m w := by
  intro hmem
  simp only [bulletLine, List.mem_cons] at hmem
  rcases hmem with h | h | h | h | h | h | h
  · exact absurd h (by decide)
  · exact absurd h (by decide)
  · exact absurd h (by decide)
  · exact hm h.symm
  · exact absurd h (by decide)
  · exact absurd h (by decide)
  · exact newline_not_mem hw h

/-- The canonical bulleted line ends in a non-whitespace character, so
carriage-return stripping leaves it unchanged. -/
theorem stripCR_bulletLine {m : Char} {w : List Char} (hw0 : w ≠ [])
    (hw : ∀ c ∈ w, rustWhitespace c = false) :
    stripCR (bulletLine m w) = bulletLine m w := by
  have ha : w.getLast? = some (w.getLast hw0) := List.getLast?_eq_getLast w hw0
  have hmem : w.getLast hw0 ∈ w := List.getLast_mem hw0
  have hbl : (bulletLine m w).getLast? = some (w.getLast hw0) := by
    have hrep : bulletLine m w = ['*', ' ', '[', m, ']', ' '] ++ w := rfl
    rw [hrep, List.getLast?_append, ha]
    rfl
  have hne : w.getLast hw0 ≠ '\r' := by
    intro e
    have := hw _ hmem
    rw [e] at this
    revert this
    decide
  simp [stripCR, hbl, hne]

/-- The line splitter recovers the lines of a canonical document. -/
theorem splitLines_bulletDoc :
    ∀ ps : List (Char × List Char), (∀ p ∈ ps, goodPair p) →
      splitLines (bulletDoc ps) = ps.map fun p => bulletLine p.1 p.2 := by
  intro ps
  induction ps with
  | nil => intro _; rfl
  | cons p ps ih =>
    intro h
    obtain ⟨m, w⟩ := p
    obtain ⟨hm, hw0, hw⟩ := h (m, w) (List.mem_cons_self _ _)
    have hnl := bulletLine_no_newline hm hw
    have hrep : bulletDoc ((m, w) :: ps) =
        bulletLine m w ++ '\n' :: bulletDoc ps := rfl
    rw [hrep, splitLines_append hnl, stripCR_bulletLine hw0 hw,
      ih (fun q hq => h q (List.mem_cons_of_mem _ hq))]
    rfl

/-- The capture regex on a canonical bulleted line: empty whitespace
group, the line's mark, the memo word. -/
theorem captures_bulletLine {m : Char} {w : List Char} (hm : m ≠ '\n')
    (hw0 : w ≠ []) (hw : ∀ c ∈ w, rustWhitespace c = false) :
    itemOpenCaptures (bulletLine m w) = some ([], m, w) := by
  obtain ⟨c0, w', rfl⟩ : ∃ c0 w', w = c0 :: w' := by
    cases w with
    | nil => exact absurd rfl hw0
    | cons c0 w' => exact ⟨c0, w', rfl⟩
  have hc0 : rustWhitespace c0 = false := hw c0 (List.mem_cons_self _ _)
  have hnm : ¬('\n' = c0) ∧ '\n' ∉ w' := by
    have hx := newline_not_mem hw
    simpa [List.mem_cons, not_or] using hx
  have b1 : rustWhitespace '*' = false := by decide
  have b2 : rustWhitespace ' ' = true := by decide
  have b3 : rustWhitespace '[' = false := by decide
  have b4 : bulletChar '*' = true := by decide
  simp [itemOpenCaptures, checkboxTail, afterBullet, bulletLine,
    List.takeWhile_cons, List.dropWhile_cons, b1, b2, b3, b4, hc0, hm,
    hnm.1, hnm.2]

/-- One accumulator step on a canonical bulleted line: emit any pending
record and load nest 0, the line's mark, and the memo word. -/
theorem loadStep_bulletLine {m : Char} {w : List Char} (a : Acc)
    (hm : m ≠ '\n') (hw0 : w ≠ []) (hw : ∀ c ∈ w, rustWhitespace c = false) :
    loadStep a (bulletLine m w) =
      ⟨a.vec ++ (if a.state = .Doing then [itemOfAcc a] else []),
        .Doing, 0, [m], w⟩ := by
  have hc := captures_bulletLine hm hw0 hw
  have hcl := classify_of_captures hc
  have ht : rustTrim w = w := rustTrim_of_nonws hw
  have h0 : whitespace_to_nest [] = 0 := by decide
  rcases hs : a.state with _ | _ <;>
    simp [loadStep, hcl, hc, hs, ht, h0]

/-- Folding the accumulator over canonical bulleted lines appends one
plain record per line after flushing any pending record. -/
theorem loadFinish_foldl_bullets :
    ∀ ps : List (Char × List Char), (∀ p ∈ ps, goodPair p) →
      ∀ a : Acc,
        loadFinish (List.foldl loadStep a (ps.map fun p => bulletLine p.1 p.2)) =
          (a.vec ++ if a.state = .Doing then [itemOfAcc a] else []) ++
            ps.map fun p => plainItem p.1 p.2 := by
  intro ps
  induction ps with
  | nil => intro _ a; simp [loadFinish]
  | cons p ps ih =>
    intro h a
    obtain ⟨m, w⟩ := p
    obtain ⟨hm, hw0, hw⟩ := h (m, w) (List.mem_cons_self _ _)
    simp only [List.map_cons, List.foldl_cons]
    rw [loadStep_bulletLine a hm hw0 hw,
      ih (fun q hq => h q (List.mem_cons_of_mem _ hq))]
    simp [itemOfAcc, plainItem]

/-- The line-class/accumulate implementation on a canonical document. -/
theorem load_items_bulletDoc (ps : List (Char × List Char))
    (h : ∀ p ∈ ps, goodPair p) :
    load_items_via_str (bulletDoc ps) = ps.map fun p => plainItem p.1 p.2 := by
  rw [load_items_via_str, splitLines_bulletDoc ps h, load_items,
    loadFinish_foldl_bullets ps h initAcc]
  simp [initAcc]

/-- The grammar parser `one` on a canonical bulleted line followed by
further canonical content. -/
theorem one_bulletLine_append {m : Char} {w : List Char} (_hm : m ≠ '\n')
    (hw0 : w ≠ []) (hw : ∀ c ∈ w, rustWhitespace c = false)
    (rest : List Char) (hr : rest.dropWhile nomWs = rest) :
    one (bulletLine m w ++ '\n' :: rest) = some (rest, plainItem m w) := by
  obtain ⟨c0, w', rfl⟩ : ∃ c0 w', w = c0 :: w' := by
    cases w with
    | nil => exact absurd rfl hw0
    | cons c0 w' => exact ⟨c0, w', rfl⟩
  have hc0 : nomWs c0 = false := nomWs_eq_false (hw c0 (List.mem_cons_self _ _))
  have hpred : ∀ c ∈ c0 :: w', (c != '\r' && c != '\n') = true := by
    intro c hc
    have h1 : c ≠ '\r' := by
      intro e
      have := hw c hc
      rw [e] at this
      revert this
      decide
    have h2 : c ≠ '\n' := by
      intro e
      have := hw c hc
      rw [e] at this
      revert this
      decide
    simp [h1, h2]
  have hp0 := hpred c0 (List.mem_cons_self _ _)
  have hpred' : ∀ c ∈ w', (c != '\r' && c != '\n') = true :=
    fun c hc => hpred c (List.mem_cons_of_mem _ hc)
  have htake := takeWhile_append_stop
    (p := fun c => c != '\r' && c != '\n') rest hpred'
    (by decide : (('\n' : Char) != '\r' && ('\n' : Char) != '\n') = false)
  have hdrop := dropWhile_append_stop
    (p := fun c => c != '\r' && c != '\n') rest hpred'
    (by decide : (('\n' : Char) != '\r' && ('\n' : Char) != '\n') = false)
  have n1 : nomWs '*' = false := by decide
  have n2 : nomWs ' ' = true := by decide
  have n3 : nomWs '[' = false := by decide
  have n4 : bulletChar '*' = true := by decide
  have n5 : nomWs '\n' = true := by decide
  simp only [bulletLine, List.cons_append]
  simp [one, List.dropWhile_cons, List.takeWhile_cons, n1, n2, n3, n4, n5,
    hc0, hp0, list_marker, checkbox, checkbox_open, checkbox_mark,
    checkbox_shut, not_line_ending, htake, hdrop, hr, plainItem]

/-- A canonical document is left fixed by leading nom-whitespace
stripping (it is empty or starts with a bullet). -/
theorem bulletDoc_dropWhile (ps : List (Char × List Char)) :
    (bulletDoc ps).dropWhile nomWs = bulletDoc ps := by
  cases ps with
  | nil => rfl
  | cons p ps =>
    obtain ⟨m, w⟩ := p
    simp [bulletDoc, bulletLine, List.cons_append, List.dropWhile_cons,
      (by decide : nomWs '*' = false)]

/-- The fueled `many0` on a canonical document collects one plain record
per line, for any sufficient fuel. -/
theorem many0Fuel_bulletDoc :
    ∀ ps : List (Char × List Char), (∀ p ∈ ps, goodPair p) →
      ∀ n, (bulletDoc ps).length < n →
        many0Fuel n (bulletDoc ps) = ([], ps.map fun p => plainItem p.1 p.2) := by
  intro ps
  induction ps with
  | nil =>
    intro _ n hn
    cases n with
    | zero => exact absurd hn (Nat.not_lt_zero _)
    | succ n => rfl
  | cons p ps ih =>
    intro h n hn
    obtain ⟨m, w⟩ := p
    obtain ⟨hm, hw0, hw⟩ := h (m, w) (List.mem_cons_self _ _)
    have hone : one (bulletDoc ((m, w) :: ps)) =
        some (bulletDoc ps, plainItem m w) := by
      have hrep : bulletDoc ((m, w) :: ps) =
          bulletLine m w ++ '\n' :: bulletDoc ps := rfl
      rw [hrep]
      exact one_bulletLine_append hm hw0 hw _ (bulletDoc_dropWhile ps)
    have hlen : (bulletDoc ps).length + 7 ≤ (bulletDoc ((m, w) :: ps)).length := by
      show (bulletDoc ps).length + 7 ≤ (bulletLine m w ++ '\n' :: bulletDoc ps).length
      simp only [bulletLine, List.length_append, List.length_cons]
      omega
    cases n with
    | zero => exact absurd hn (Nat.not_lt_zero _)
    | succ n =>
      simp only [many0Fuel, hone]
      rw [ih (fun q hq => h q (List.mem_cons_of_mem _ hq)) n (by omega)]
      rfl

/-- `many0` on a canonical document consumes everything and collects one
plain record per line. -/
theorem many0_bulletDoc (ps : List (Char × List Char))
    (h : ∀ p ∈ ps, goodPair p) :
    many0 (bulletDoc ps) = ([], ps.map fun p => plainItem p.1 p.2) :=
  many0Fuel_bulletDoc ps h _ (Nat.lt_succ_self _)

/-- C9 (counterexample): the claim that the two implementations produce
the same record sequence for every input is false: on `"[x] foo"` the
accumulator implementation emits one record while the grammar
implementation emits none, because `one` demands a list bullet. -/
theorem C9_counterexample :
    load_items_via_str (("[x] foo").data) =
      [⟨some 0, some ['x'], some (("foo").data), none, none⟩]
    ∧ (many0 (("[x] foo").data)).2 = []
    ∧ load_items_via_str (("[x] foo").data) ≠ (many0 (("[x] foo").data)).2 := by
  refine ⟨by decide, by decide, by decide⟩

/-- C9 (amended): the two implementations agree on canonical documents —
sequences of newline-terminated lines `* [m] w` with an unindented
bullet, a non-newline mark, and a nonempty whitespace-free memo word:
both produce, in order, one record per line with nest 0, that mark and
that memo, and the grammar implementation consumes the whole input.  (On
general input they disagree; see the counterexample.) -/
theorem C9_theorem (ps : List (Char × List Char))
    (h : ∀ p ∈ ps, goodPair p) :
    load_items_via_str (bulletDoc ps) = (many0 (bulletDoc ps)).2
    ∧ (many0 (bulletDoc ps)).1 = []
    ∧ load_items_via_str (bulletDoc ps) = ps.map fun p => plainItem p.1 p.2 := by
  have hl := load_items_bulletDoc ps h
  have hr := many0_bulletDoc ps h
  exact ⟨by rw [hl, hr], by rw [hr], hl⟩

/-- C9 (witness): the agreement evaluated on the concrete two-item
canonical document `"* [x] foo\n* [ ] ok\n"`. -/
theorem C9_witness :
    load_items_via_str (bulletDoc [('x', ("foo").data), (' ', ("ok").data)]) =
      (many0 (bulletDoc [('x', ("foo").data), (' ', ("ok").data)])).2
    ∧ (many0 (bulletDoc [('x', ("foo").data), (' ', ("ok").data)])).1 = []
    ∧ load_items_via_str (bulletDoc [('x', ("foo").data), (' ', ("ok").data)]) =
        [plainItem 'x' (("foo").data), plainItem ' ' (("ok").data)] :=
  C9_theorem [('x', ("foo").data), (' ', ("ok").data)] (by decide)

end ToDoBy
